import Mathlib

/-!
Shallow embedding of `process_company_data` from
`format_change_all_companies.py`: the grouping / aggregation /
transformation core that turns a list of sector records into one output
row per tower.  The CSV loading and the Excel writing/styling are external
collaborators and are not modelled; the model starts from the in-memory
ordered list of input rows and ends with the ordered list of output rows.
-/

namespace Spec2

/-- Lexicographic code-point comparison of character lists: the order
Python uses on `str` and hence the order pandas sorts group keys with. -/
def charListLe : List Char → List Char → Bool
  | [], _ => true
  | _ :: _, [] => false
  | a :: as, b :: bs =>
    if a.toNat < b.toNat then true
    else if b.toNat < a.toNat then false
    else charListLe as bs

/-- Python's `<=` on strings (code-point lexicographic). -/
def strLe (a b : String) : Prop := charListLe a.data b.data = true

instance : DecidableRel strLe := fun a b => inferInstanceAs (Decidable (_ = true))

/-- Does the character list `s` start with `p`? -/
def startsWith : List Char → List Char → Bool
  | [], _ => true
  | _ :: _, [] => false
  | p :: ps, c :: cs => if p = c then startsWith ps cs else false

/-- Literal replace-all on character lists, scanning left to right and
skipping past each match, with a fuel argument bounded by the input
length (each step consumes at least one character). -/
def replaceChars (pat rep : List Char) : Nat → List Char → List Char
  | _, [] => []
  | 0, s => s
  | fuel + 1, c :: cs =>
    if startsWith pat (c :: cs) then
      rep ++ replaceChars pat rep fuel (cs.drop (pat.length - 1))
    else c :: replaceChars pat rep fuel cs

/-- Replace every occurrence of `pat` in `s` by `rep`: the semantics of
pandas `Series.str.replace(pat, rep)` with a literal pattern. -/
def replaceAll (s pat rep : String) : String :=
  String.mk (replaceChars pat.data rep.data s.data.length s.data)

/-- A numeric cell value as the Python code sees it after `float(...)`:
either an actual rational number or the IEEE `NaN` produced by a missing
(empty) CSV cell.  Exact rationals stand in for binary floats; every claim
proved here depends only on the order and selection of the arithmetic
operations, never on rounding, so the substitution is faithful. -/
inductive F where
  | num (q : ℚ)
  | nan
  deriving DecidableEq, Repr, Inhabited

/-- Python `+` on such values: `NaN` propagates. -/
def F.add : F → F → F
  | F.num a, F.num b => F.num (a + b)
  | _, _ => F.nan

/-- Python `x < q` for such an `x` against a numeric literal `q`:
false whenever `x` is `NaN` (IEEE comparison). -/
def F.lt : F → ℚ → Bool
  | F.num a, q => decide (a < q)
  | F.nan, _ => false

/-- One CSV cell.  `fv x` models a cell whose text `float(...)` parses
(including an empty cell, which pandas reads as `NaN`); `sv s` models a
cell holding text that `float(...)` rejects with `ValueError`. -/
inductive Val where
  | fv (x : F)
  | sv (s : String)
  deriving DecidableEq, Repr, Inhabited

/-- `str(...)` of a cell, as used by `.astype(str)` before joining. -/
def strVal : Val → String
  | Val.fv (F.num q) => toString q
  | Val.fv F.nan => "nan"
  | Val.sv s => s

/-- Does `float(...)` succeed on this cell? -/
def isNum : Val → Bool
  | Val.fv _ => true
  | Val.sv _ => false

/-- The error raised by `float(row['bandwidth'])` on non-numeric text
(Python `ValueError`; the spec's `ParseError`). -/
inductive ParseError where
  | parseError
  deriving DecidableEq, Repr

/-- `float(...)` on a cell: the parsed value or a `ParseError`. -/
def toFloat : Val → Except ParseError F
  | Val.fv x => Except.ok x
  | Val.sv _ => Except.error ParseError.parseError

/-- One input sector record, with the columns of `use_cols`
(`area_name*` is read by the script but used nowhere downstream). -/
structure InputRow where
  tier4_id : Val
  record_id : String
  area_name : Val
  latitude : Val
  longitude : Val
  structure_height : F
  tx_ant_azimuth : Val
  licence_category : Val
  technology : String
  tx_power : Val
  bandwidth : Val
  deriving DecidableEq, Repr, Inhabited

/-- One aggregated row (`row_result` in the script) before renaming. -/
structure AggRow where
  record_id : String
  tier4_id : Val
  latitude : Val
  longitude : Val
  structure_height : F
  licence_category : String
  tx_ant_azimuth : String
  technology : String
  bandwidth : String
  tx_power : String
  bw_4g : F
  bw_5g : F
  deriving DecidableEq, Repr, Inhabited

/-- A marker cell: the Python code writes the int `1` or the string `"-"`. -/
inductive Mark where
  | one
  | dash
  deriving DecidableEq, Repr, Inhabited

/-- One row of the final report table, fields in the order of
`final_columns` (`site_type` is the `Type` column, `micro_mk` / `macro_mk`
the `Micro` / `Macro` columns). -/
structure OutputRow where
  code : Val
  name : String
  province : String
  tower_id : String
  licensee : String
  latitude : Val
  longitude : Val
  height_m : F
  site_type : String
  micro_mk : Mark
  macro_mk : Mark
  tx_ant_azi : String
  services : String
  technology : String
  tr_bw_blocs : String
  bw_4g : F
  bw_5g : F
  tx_pwr : String
  deriving DecidableEq, Repr, Inhabited

/-- Python `'~'.join`: empty string on `[]`, the single element on a
one-element list, otherwise the elements separated by `~`. -/
def joinTilde : List String → String
  | [] => ""
  | s :: rest => rest.foldl (fun acc t => acc ++ "~" ++ t) s

/-- The distinct `record_id` values in order of first appearance
(accumulator `seen` holds the keys already met, oldest first). -/
def firstSeen (seen : List String) : List InputRow → List String
  | [] => seen
  | r :: rs =>
    firstSeen (if r.record_id ∈ seen then seen else seen ++ [r.record_id]) rs

/-- The distinct grouping-key values in first-appearance order. -/
def firstSeenKeys (rows : List InputRow) : List String :=
  firstSeen [] rows

/-- The key sequence `df.groupby('record_id')` enumerates: the distinct
keys in ascending sorted order (pandas `groupby` defaults to
`sort=True`). -/
def groupKeys (rows : List InputRow) : List String :=
  List.insertionSort strLe (firstSeenKeys rows)

/-- The rows of one group, in input order (pandas `groupby` preserves the
original order of rows inside each group). -/
def groupOf (rows : List InputRow) (k : String) : List InputRow :=
  rows.filter (fun r => decide (r.record_id = k))

/-- The accumulator loop of lines 41–47: starting from the pair of
accumulators `acc` (initially `(0, 0)`), parse each row's bandwidth with
`float` — every row, whatever its technology — and add it to the first
component when the technology is `LTE`, to the second when it is `5G`,
and to neither otherwise. -/
def accumBW (acc : F × F) : List InputRow → Except ParseError (F × F)
  | [] => Except.ok acc
  | r :: rs => do
    let bw ← toFloat r.bandwidth
    let acc' :=
      if r.technology = "LTE" then (F.add acc.1 bw, acc.2)
      else if r.technology = "5G" then (acc.1, F.add acc.2 bw)
      else acc
    accumBW acc' rs

/-- The body of the `for group_name, group_df in df.groupby(...)` loop:
unique fields from the group's first row (`iloc[0]`), variable fields
joined with `~` in row order, and the two bandwidth accumulators. -/
def aggregateGroup (key : String) (g : List InputRow) : Except ParseError AggRow := do
  let bw ← accumBW (F.num 0, F.num 0) g
  Except.ok
    { record_id := g.headI.record_id
      tier4_id := g.headI.tier4_id
      latitude := g.headI.latitude
      longitude := g.headI.longitude
      structure_height := g.headI.structure_height
      licence_category := joinTilde (g.map fun r => strVal r.licence_category)
      tx_ant_azimuth := joinTilde (g.map fun r => strVal r.tx_ant_azimuth)
      technology := joinTilde (g.map fun r => r.technology)
      bandwidth := joinTilde (g.map fun r => strVal r.bandwidth)
      tx_power := joinTilde (g.map fun r => strVal r.tx_power)
      bw_4g := bw.1
      bw_5g := bw.2 }

/-- The whole grouping loop: aggregate the groups in the order the keys
are enumerated, aborting at the first `ParseError` with no partial
result (the Python exception propagates out of the function). -/
def aggregateAll (rows : List InputRow) : List String → Except ParseError (List AggRow)
  | [] => Except.ok []
  | k :: ks => do
    let a ← aggregateGroup k (groupOf rows k)
    let rest ← aggregateAll rows ks
    Except.ok (a :: rest)

/-- Line 71: `'Micro' if x < 10 else 'Macro'`. -/
def typeOfHeight (x : F) : String :=
  if F.lt x 10 then "Micro" else "Macro"

/-- Lines 54–81: rename to destination names, add the static and derived
fields, normalize `SERVICES` (`~` → `|`) and `TECHNOLOGY`
(`LTE` → `4G`), and fix the final column order. -/
def transformRow (province licensee : String) (a : AggRow) : OutputRow :=
  let t := typeOfHeight a.structure_height
  { code := a.tier4_id
    name := " "
    province := province
    tower_id := a.record_id
    licensee := licensee
    latitude := a.latitude
    longitude := a.longitude
    height_m := a.structure_height
    site_type := t
    micro_mk := if t = "Micro" then Mark.one else Mark.dash
    macro_mk := if t = "Macro" then Mark.one else Mark.dash
    tx_ant_azi := a.tx_ant_azimuth
    services := replaceAll a.licence_category "~" "|"
    technology := replaceAll a.technology "LTE" "4G"
    tr_bw_blocs := a.bandwidth
    bw_4g := a.bw_4g
    bw_5g := a.bw_5g
    tx_pwr := a.tx_power }

/-- The full core of `process_company_data`: group, aggregate each group,
transform each aggregated row.  `province` and `licensee` are the
caller-supplied constants; the resulting list is what the external
reporter writes to the worksheet. -/
def process_company_data (rows : List InputRow) (province licensee : String) :
    Except ParseError (List OutputRow) := do
  let aggs ← aggregateAll rows (groupKeys rows)
  Except.ok (aggs.map (transformRow province licensee))

/-- The parsed bandwidth of a row whose bandwidth cell is numeric
(`F.num 0` as a don't-care value on text cells, which never reach it in
the theorems below). -/
def bwOf (r : InputRow) : F :=
  match toFloat r.bandwidth with
  | Except.ok x => x
  | Except.error _ => F.num 0

/-- Specification-side sum: the bandwidths of exactly the rows whose
technology equals `t`, added left to right starting from `0` — the same
additions, in the same order, that the accumulator loop performs. -/
def bwSumSpec (t : String) (g : List InputRow) : F :=
  ((g.filter fun r => decide (r.technology = t)).map bwOf).foldl F.add (F.num 0)

/-! ### Concrete inputs used by counterexamples and witnesses -/

/-- A sector record with the given key, technology, bandwidth cell and
height; the remaining cells are fixed text values. -/
def mkRow (key tech : String) (bw : Val) (h : F) : InputRow :=
  { tier4_id := Val.sv "T1"
    record_id := key
    area_name := Val.sv "Area"
    latitude := Val.sv "45.5"
    longitude := Val.sv "-73.6"
    structure_height := h
    tx_ant_azimuth := Val.sv "120"
    licence_category := Val.sv "PCS"
    technology := tech
    tx_power := Val.sv "40"
    bandwidth := bw }

/-- Key `B` appears before key `A`: first-appearance order is `[B, A]`. -/
def exOrderRows : List InputRow :=
  [mkRow "B" "X" (Val.fv (F.num 0)) (F.num 0),
   mkRow "A" "X" (Val.fv (F.num 0)) (F.num 0)]

/-- The three-row example of the spec: two `LTE` rows of bandwidth 10 and
one `5G` row of bandwidth 100, all on tower `E5015`. -/
def exFiveRows : List InputRow :=
  [mkRow "E5015" "LTE" (Val.fv (F.num 10)) (F.num 15),
   mkRow "E5015" "LTE" (Val.fv (F.num 10)) (F.num 15),
   mkRow "E5015" "5G" (Val.fv (F.num 100)) (F.num 15)]

/-- A group mixing `LTE`, an unrecognized `UMTS`, and `5G`. -/
def exMixedGroup : List InputRow :=
  [mkRow "K" "LTE" (Val.fv (F.num 1)) (F.num 0),
   mkRow "K" "UMTS" (Val.fv (F.num 5)) (F.num 0),
   mkRow "K" "5G" (Val.fv (F.num 2)) (F.num 0)]

/-- Three rows over two towers, one key repeated. -/
def exTwoTowerRows : List InputRow :=
  [mkRow "B" "X" (Val.fv (F.num 0)) (F.num 0),
   mkRow "A" "X" (Val.fv (F.num 0)) (F.num 0),
   mkRow "B" "X" (Val.fv (F.num 0)) (F.num 0)]

def exTwoTowerOuts : List OutputRow :=
  (process_company_data exTwoTowerRows "QC" "Lic").toOption.getD []

/-- One tower whose height is exactly 10. -/
def exHeight10Rows : List InputRow :=
  [mkRow "K" "X" (Val.fv (F.num 0)) (F.num 10)]

def exHeight10Out : OutputRow :=
  ((process_company_data exHeight10Rows "QC" "Lic").toOption.getD []).headI

/-- One tower whose height is 5 (a `Micro` site). -/
def exHeight5Rows : List InputRow :=
  [mkRow "K" "X" (Val.fv (F.num 0)) (F.num 5)]

def exHeight5Out : OutputRow :=
  ((process_company_data exHeight5Rows "QC" "Lic").toOption.getD []).headI

/-- A two-row group used to exercise the variable-field join. -/
def exJoinGroup : List InputRow :=
  [mkRow "K" "X" (Val.fv (F.num 0)) (F.num 0),
   mkRow "K" "Y" (Val.fv (F.num 0)) (F.num 0)]

def exJoinAgg : AggRow :=
  (aggregateGroup "K" exJoinGroup).toOption.getD default

/-- Rows whose second row has a bandwidth `float(...)` rejects. -/
def exBadBwRows : List InputRow :=
  [mkRow "K" "LTE" (Val.fv (F.num 3)) (F.num 0),
   mkRow "K" "LTE" (Val.sv "n/a") (F.num 0)]

/-- A single-row group whose height cell is missing (`NaN`). -/
def exNanRow : InputRow := mkRow "K" "X" (Val.fv (F.num 0)) F.nan

def exNanAgg : AggRow :=
  (aggregateGroup "K" [exNanRow]).toOption.getD default

/-- Rows for the determinism witness. -/
def exDetRows : List InputRow :=
  [mkRow "A" "X" (Val.fv (F.num 0)) (F.num 0)]

/-! ### Helper lemmas -/

theorem joinTilde_singleton (s : String) : joinTilde [s] = s := rfl

theorem ok_bind {α β : Type} (a : α) (f : α → Except ParseError β) :
    (Except.ok a >>= f) = f a := rfl

theorem error_bind {α β : Type} (e : ParseError) (f : α → Except ParseError β) :
    ((Except.error e : Except ParseError α) >>= f) = Except.error e := rfl

theorem except_bind_ok {α β : Type} (x : Except ParseError α)
    (f : α → Except ParseError β) (b : β) :
    (x >>= f) = Except.ok b ↔ ∃ a, x = Except.ok a ∧ f a = Except.ok b := by
  cases x with
  | ok a => simp [ok_bind]
  | error e => simp [error_bind]

theorem charListLe_total : ∀ as bs, charListLe as bs = true ∨ charListLe bs as = true := by
  intro as
  induction as with
  | nil => intro bs; left; rfl
  | cons a as ih =>
    intro bs
    cases bs with
    | nil => right; rfl
    | cons b bs =>
      rcases Nat.lt_trichotomy a.toNat b.toNat with h | h | h
      · left; simp [charListLe, h]
      · rcases ih bs with h2 | h2
        · left; simp [charListLe, h, h2]
        · right; simp [charListLe, h.symm, h2]
      · right; simp [charListLe, h]

theorem charListLe_trans : ∀ as bs cs, charListLe as bs = true → charListLe bs cs = true →
    charListLe as cs = true := by
  intro as
  induction as with
  | nil => intro bs cs _ _; rfl
  | cons a as ih =>
    intro bs cs h1 h2
    cases bs with
    | nil => simp [charListLe] at h1
    | cons b bs =>
      cases cs with
      | nil => simp [charListLe] at h2
      | cons c cs =>
        simp only [charListLe] at h1 h2 ⊢
        split_ifs at h1 h2 ⊢
        all_goals first
          | rfl
          | (exact ih bs cs h1 h2)
          | (exfalso; omega)

instance : IsTotal String strLe :=
  ⟨fun a b => charListLe_total a.data b.data⟩

instance : IsTrans String strLe :=
  ⟨fun a b c => charListLe_trans a.data b.data c.data⟩

theorem mem_firstSeen : ∀ (rows : List InputRow) (seen : List String) (k : String),
    k ∈ firstSeen seen rows ↔ k ∈ seen ∨ k ∈ rows.map (fun r => r.record_id) := by
  intro rows
  induction rows with
  | nil => intro seen k; simp [firstSeen]
  | cons r rs ih =>
    intro seen k
    by_cases h : r.record_id ∈ seen
    · rw [firstSeen, if_pos h, ih]
      simp only [List.map_cons, List.mem_cons]
      constructor
      · rintro (hk | hk)
        · exact Or.inl hk
        · exact Or.inr (Or.inr hk)
      · rintro (hk | hk | hk)
        · exact Or.inl hk
        · exact Or.inl (hk ▸ h)
        · exact Or.inr hk
    · rw [firstSeen, if_neg h, ih]
      simp only [List.mem_append, List.mem_singleton, List.map_cons, List.mem_cons]
      tauto

theorem nodup_firstSeen : ∀ (rows : List InputRow) (seen : List String),
    seen.Nodup → (firstSeen seen rows).Nodup := by
  intro rows
  induction rows with
  | nil => intro seen h; exact h
  | cons r rs ih =>
    intro seen h
    by_cases hm : r.record_id ∈ seen
    · rw [firstSeen, if_pos hm]; exact ih seen h
    · rw [firstSeen, if_neg hm]
      refine ih _ ?_
      simp [List.nodup_append, h, hm]

theorem groupKeys_perm (rows : List InputRow) : (groupKeys rows).Perm (firstSeenKeys rows) :=
  List.perm_insertionSort strLe (firstSeenKeys rows)

theorem mem_groupKeys {rows : List InputRow} {k : String} :
    k ∈ groupKeys rows ↔ k ∈ rows.map (fun r => r.record_id) := by
  rw [(groupKeys_perm rows).mem_iff, firstSeenKeys, mem_firstSeen]
  simp

theorem nodup_groupKeys (rows : List InputRow) : (groupKeys rows).Nodup :=
  (groupKeys_perm rows).nodup_iff.mpr (nodup_firstSeen rows [] List.nodup_nil)

theorem sorted_groupKeys (rows : List InputRow) : List.Sorted strLe (groupKeys rows) :=
  List.sorted_insertionSort strLe (firstSeenKeys rows)

theorem mem_groupOf {rows : List InputRow} {k : String} {r : InputRow} :
    r ∈ groupOf rows k ↔ r ∈ rows ∧ r.record_id = k := by
  simp [groupOf]

theorem headI_groupOf {rows : List InputRow} {k : String}
    (h : k ∈ rows.map (fun r => r.record_id)) :
    (groupOf rows k).headI.record_id = k := by
  rcases List.mem_map.mp h with ⟨r, hr, hrk⟩
  have hrg : r ∈ groupOf rows k := mem_groupOf.mpr ⟨hr, hrk⟩
  cases hG : groupOf rows k with
  | nil => rw [hG] at hrg; exact absurd hrg (List.not_mem_nil r)
  | cons c cs =>
    have hc : c ∈ groupOf rows k := by rw [hG]; exact List.mem_cons_self c cs
    exact (mem_groupOf.mp hc).2

theorem accumBW_ok : ∀ (g : List InputRow) (acc : F × F),
    (∀ r ∈ g, isNum r.bandwidth = true) →
    accumBW acc g = Except.ok
      (((g.filter fun r => decide (r.technology = "LTE")).map bwOf).foldl F.add acc.1,
       ((g.filter fun r => decide (r.technology = "5G")).map bwOf).foldl F.add acc.2) := by
  intro g
  induction g with
  | nil => intro acc _; rfl
  | cons r rs ih =>
    intro acc h
    have hr : isNum r.bandwidth = true := h r (List.mem_cons_self r rs)
    have hrs : ∀ x ∈ rs, isNum x.bandwidth = true := fun x hx => h x (List.mem_cons_of_mem r hx)
    cases hv : r.bandwidth with
    | sv s => rw [hv] at hr; simp [isNum] at hr
    | fv x =>
      have hbw : bwOf r = x := by simp [bwOf, toFloat, hv]
      rw [accumBW, hv, toFloat, ok_bind]
      by_cases hL : r.technology = "LTE"
      · have h5 : ¬ r.technology = "5G" := by rw [hL]; decide
        simp only [hL, if_pos rfl, if_true]
        rw [ih (F.add acc.1 x, acc.2) hrs]
        simp [List.filter_cons, hL, h5, hbw]
      · by_cases h5 : r.technology = "5G"
        · rw [if_neg hL, if_pos h5]
          rw [ih (acc.1, F.add acc.2 x) hrs]
          simp [List.filter_cons, hL, h5, hbw]
        · simp only [if_neg hL, if_neg h5]
          rw [ih acc hrs]
          simp [List.filter_cons, hL, h5]

theorem accumBW_error : ∀ (g : List InputRow) (acc : F × F),
    (∃ r ∈ g, isNum r.bandwidth = false) →
    accumBW acc g = Except.error ParseError.parseError := by
  intro g
  induction g with
  | nil => intro acc h; simp at h
  | cons r rs ih =>
    intro acc h
    cases hv : r.bandwidth with
    | sv s =>
      rw [accumBW, hv, toFloat, error_bind]
    | fv x =>
      rcases h with ⟨r', hr', hbad⟩
      rcases List.mem_cons.mp hr' with he | hm
      · rw [he, hv] at hbad; simp [isNum] at hbad
      · rw [accumBW, hv, toFloat, ok_bind]
        split_ifs <;> exact ih _ ⟨r', hm, hbad⟩

theorem accumBW_ok_isNum : ∀ (g : List InputRow) (acc bw : F × F),
    accumBW acc g = Except.ok bw → ∀ r ∈ g, isNum r.bandwidth = true := by
  intro g
  induction g with
  | nil => intro acc bw _ r hr; simp at hr
  | cons r rs ih =>
    intro acc bw h r' hr'
    cases hv : r.bandwidth with
    | sv s =>
      rw [accumBW, hv, toFloat, error_bind] at h
      exact absurd h (by simp)
    | fv x =>
      rw [accumBW, hv, toFloat, ok_bind] at h
      rcases List.mem_cons.mp hr' with he | hm
      · rw [he, hv]; rfl
      · split_ifs at h <;> exact ih _ bw h r' hm

theorem aggregateGroup_ok_iff {key : String} {g : List InputRow} {a : AggRow} :
    aggregateGroup key g = Except.ok a ↔
      ∃ bw, accumBW (F.num 0, F.num 0) g = Except.ok bw ∧
        a = { record_id := g.headI.record_id
              tier4_id := g.headI.tier4_id
              latitude := g.headI.latitude
              longitude := g.headI.longitude
              structure_height := g.headI.structure_height
              licence_category := joinTilde (g.map fun r => strVal r.licence_category)
              tx_ant_azimuth := joinTilde (g.map fun r => strVal r.tx_ant_azimuth)
              technology := joinTilde (g.map fun r => r.technology)
              bandwidth := joinTilde (g.map fun r => strVal r.bandwidth)
              tx_power := joinTilde (g.map fun r => strVal r.tx_power)
              bw_4g := bw.1
              bw_5g := bw.2 } := by
  rw [aggregateGroup, except_bind_ok]
  constructor
  · rintro ⟨bw, hbw, hok⟩
    exact ⟨bw, hbw, by injection hok with h; exact h.symm⟩
  · rintro ⟨bw, hbw, ha⟩
    exact ⟨bw, hbw, by rw [ha]⟩

theorem aggregateGroup_error {key : String} {g : List InputRow}
    (h : ∃ r ∈ g, isNum r.bandwidth = false) :
    aggregateGroup key g = Except.error ParseError.parseError := by
  rw [aggregateGroup, accumBW_error g _ h, error_bind]

theorem aggregateAll_ok_forall₂ : ∀ (ks : List String) (rows : List InputRow)
    (aggs : List AggRow), aggregateAll rows ks = Except.ok aggs →
    List.Forall₂ (fun k a => aggregateGroup k (groupOf rows k) = Except.ok a) ks aggs := by
  intro ks
  induction ks with
  | nil =>
    intro rows aggs h
    rw [aggregateAll] at h
    injection h with h
    rw [← h]
    exact List.Forall₂.nil
  | cons k ks ih =>
    intro rows aggs h
    rw [aggregateAll, except_bind_ok] at h
    rcases h with ⟨a, ha, h⟩
    rw [except_bind_ok] at h
    rcases h with ⟨rest, hrest, h⟩
    injection h with h
    rw [← h]
    exact List.Forall₂.cons ha (ih rows rest hrest)

theorem aggregateAll_error : ∀ (ks : List String) (rows : List InputRow),
    (∃ k ∈ ks, aggregateGroup k (groupOf rows k) = Except.error ParseError.parseError) →
    aggregateAll rows ks = Except.error ParseError.parseError := by
  intro ks
  induction ks with
  | nil => intro rows h; simp at h
  | cons k ks ih =>
    intro rows h
    cases hk : aggregateGroup k (groupOf rows k) with
    | error e =>
      cases e
      rw [aggregateAll, hk, error_bind]
    | ok a =>
      rcases h with ⟨k', hk', hbad⟩
      rcases List.mem_cons.mp hk' with he | hm
      · rw [he, hk] at hbad; exact absurd hbad (by simp)
      · rw [aggregateAll, hk, ok_bind, ih rows ⟨k', hm, hbad⟩, error_bind]

theorem process_ok_iff {rows : List InputRow} {province licensee : String}
    {outs : List OutputRow} :
    process_company_data rows province licensee = Except.ok outs ↔
      ∃ aggs, aggregateAll rows (groupKeys rows) = Except.ok aggs ∧
        outs = aggs.map (transformRow province licensee) := by
  rw [process_company_data, except_bind_ok]
  constructor
  · rintro ⟨aggs, ha, hok⟩
    exact ⟨aggs, ha, by injection hok with h; exact h.symm⟩
  · rintro ⟨aggs, ha, ho⟩
    exact ⟨aggs, ha, by rw [ho]⟩

theorem forall₂_mem_right {α β : Type} {R : α → β → Prop} :
    ∀ {ks : List α} {as : List β}, List.Forall₂ R ks as →
      ∀ b ∈ as, ∃ a ∈ ks, R a b := by
  intro ks as h
  induction h with
  | nil => intro b hb; simp at hb
  | cons hR _ ih =>
    intro b hb
    rcases List.mem_cons.mp hb with he | hm
    · exact ⟨_, List.mem_cons_self _ _, he ▸ hR⟩
    · rcases ih b hm with ⟨a, ha, hab⟩
      exact ⟨a, List.mem_cons_of_mem _ ha, hab⟩

theorem mem_process_ok {rows : List InputRow} {province licensee : String}
    {outs : List OutputRow} (h : process_company_data rows province licensee = Except.ok outs)
    {o : OutputRow} (ho : o ∈ outs) :
    ∃ k a, k ∈ groupKeys rows ∧ aggregateGroup k (groupOf rows k) = Except.ok a ∧
      o = transformRow province licensee a := by
  rcases process_ok_iff.mp h with ⟨aggs, ha, houts⟩
  rw [houts] at ho
  rcases List.mem_map.mp ho with ⟨a, haggs, hta⟩
  rcases forall₂_mem_right (aggregateAll_ok_forall₂ _ rows aggs ha) a haggs with ⟨k, hk, hka⟩
  exact ⟨k, a, hk, hka, hta.symm⟩

theorem record_id_of_aggregateGroup_ok {rows : List InputRow} {k : String} {a : AggRow}
    (hmem : k ∈ rows.map (fun r => r.record_id))
    (h : aggregateGroup k (groupOf rows k) = Except.ok a) :
    a.record_id = k := by
  rcases aggregateGroup_ok_iff.mp h with ⟨bw, _, ha⟩
  rw [ha]
  exact headI_groupOf hmem

theorem outs_map_tower_id {rows : List InputRow} {province licensee : String}
    {outs : List OutputRow} (h : process_company_data rows province licensee = Except.ok outs) :
    outs.map (fun o => o.tower_id) = groupKeys rows := by
  rcases process_ok_iff.mp h with ⟨aggs, ha, houts⟩
  have hf := aggregateAll_ok_forall₂ _ rows aggs ha
  have hsub : ∀ k ∈ groupKeys rows, k ∈ rows.map (fun r => r.record_id) :=
    fun k hk => mem_groupKeys.mp hk
  have hgen : ∀ (ks : List String) (as : List AggRow),
      List.Forall₂ (fun k a => aggregateGroup k (groupOf rows k) = Except.ok a) ks as →
      (∀ k ∈ ks, k ∈ rows.map (fun r => r.record_id)) →
      as.map (fun a => a.record_id) = ks := by
    intro ks as hforall
    induction hforall with
    | nil => intro _; rfl
    | cons hR htail ih =>
      rename_i k a ks' as'
      intro hsub'
      have hk : a.record_id = k :=
        record_id_of_aggregateGroup_ok (hsub' k (List.mem_cons_self k ks')) hR
      simp only [List.map_cons]
      rw [ih (fun k' hk' => hsub' k' (List.mem_cons_of_mem k hk')), hk]
  rw [houts, List.map_map]
  have hcomp : ((fun o : OutputRow => o.tower_id) ∘ transformRow province licensee) =
      fun a : AggRow => a.record_id := rfl
  rw [hcomp]
  exact hgen _ _ hf hsub

theorem length_groupOf_cons (r : InputRow) (rs : List InputRow) (k : String) :
    (groupOf (r :: rs) k).length = (if r.record_id = k then 1 else 0) + (groupOf rs k).length := by
  simp only [groupOf, List.filter_cons]
  by_cases h : r.record_id = k <;> simp [h, Nat.add_comm]

theorem sum_map_add (K : List String) (f g : String → Nat) :
    (K.map fun k => f k + g k).sum = (K.map f).sum + (K.map g).sum := by
  induction K with
  | nil => rfl
  | cons k K ih => simp [ih]; omega

theorem sum_indicator_zero (K : List String) (x : String) (h : x ∉ K) :
    (K.map fun k => if x = k then 1 else 0).sum = 0 := by
  induction K with
  | nil => rfl
  | cons k K ih =>
    have hxk : ¬ x = k := fun he => h (he ▸ List.mem_cons_self k K)
    have hxK : x ∉ K := fun hm => h (List.mem_cons_of_mem k hm)
    simp [hxk, ih hxK]

theorem sum_indicator (K : List String) (x : String) (hnd : K.Nodup) (hx : x ∈ K) :
    (K.map fun k => if x = k then 1 else 0).sum = 1 := by
  induction K with
  | nil => simp at hx
  | cons k K ih =>
    rcases List.mem_cons.mp hx with he | hm
    · subst he
      have hxK : x ∉ K := (List.nodup_cons.mp hnd).1
      simp [sum_indicator_zero K x hxK]
    · have hxk : ¬ x = k := by
        intro he
        exact (List.nodup_cons.mp hnd).1 (he ▸ hm)
      simp [hxk, ih (List.nodup_cons.mp hnd).2 hm]

theorem sum_group_sizes : ∀ (rows : List InputRow) (K : List String), K.Nodup →
    (∀ r ∈ rows, r.record_id ∈ K) →
    (K.map fun k => (groupOf rows k).length).sum = rows.length := by
  intro rows
  induction rows with
  | nil =>
    intro K _ _
    have : ∀ k ∈ K, (groupOf ([] : List InputRow) k).length = 0 := by
      intro k _; rfl
    simp [groupOf]
  | cons r rs ih =>
    intro K hnd hcov
    have hcov' : ∀ x ∈ rs, x.record_id ∈ K :=
      fun x hx => hcov x (List.mem_cons_of_mem r hx)
    have hstep : (K.map fun k => (groupOf (r :: rs) k).length).sum =
        (K.map fun k => (if r.record_id = k then 1 else 0) + (groupOf rs k).length).sum := by
      simp only [length_groupOf_cons]
    rw [hstep, sum_map_add, sum_indicator K r.record_id hnd (hcov r (List.mem_cons_self r rs)),
      ih K hnd hcov']
    simp [Nat.add_comm]

/-! ### Claims -/

/-- C1: for every group of input rows sharing one record_id whose
bandwidth cells all parse, the aggregator succeeds, its `4G_BW` field is
the sum (from 0, in row order) of the parsed bandwidths of exactly the
rows with technology `"LTE"`, and its `5G_BW` field the same over exactly
the rows with technology `"5G"`; rows with any other technology
contribute to neither sum and cause no error. -/
theorem c1_bandwidth_sums (key : String) (g : List InputRow)
    (h : ∀ r ∈ g, isNum r.bandwidth = true) :
    ∃ a, aggregateGroup key g = Except.ok a ∧
      a.bw_4g = bwSumSpec "LTE" g ∧ a.bw_5g = bwSumSpec "5G" g := by
  have hacc := accumBW_ok g (F.num 0, F.num 0) h
  exact ⟨_, aggregateGroup_ok_iff.mpr ⟨_, hacc, rfl⟩, rfl, rfl⟩

/-- Witness for C1 on a concrete group mixing `LTE`, `UMTS` and `5G`. -/
theorem c1_bandwidth_sums_witness :
    ∃ a, aggregateGroup "K" exMixedGroup = Except.ok a ∧
      a.bw_4g = bwSumSpec "LTE" exMixedGroup ∧ a.bw_5g = bwSumSpec "5G" exMixedGroup :=
  c1_bandwidth_sums "K" exMixedGroup (by decide)

/-- C2: the grouper drops and duplicates no row: there are as many output
rows as distinct keys, the keys enumerate exactly the distinct key values
of the input, the group sizes over the enumerated keys sum to the input
length, the output rows correspond one-to-one with the enumerated keys,
and every input row lies in exactly one enumerated group. -/
theorem c2_partition (rows : List InputRow) (province licensee : String)
    (outs : List OutputRow)
    (h : process_company_data rows province licensee = Except.ok outs) :
    outs.length = (firstSeenKeys rows).length ∧
    (firstSeenKeys rows).Nodup ∧
    (∀ k, k ∈ firstSeenKeys rows ↔ k ∈ rows.map fun r => r.record_id) ∧
    ((groupKeys rows).map fun k => (groupOf rows k).length).sum = rows.length ∧
    outs.map (fun o => o.tower_id) = groupKeys rows ∧
    ∀ r ∈ rows, ∃! k, k ∈ groupKeys rows ∧ r ∈ groupOf rows k := by
  have hmap := outs_map_tower_id h
  refine ⟨?_, nodup_firstSeen rows [] List.nodup_nil, ?_, ?_, hmap, ?_⟩
  · have h1 : (outs.map fun o => o.tower_id).length = (groupKeys rows).length := by
      rw [hmap]
    rw [List.length_map] at h1
    rw [h1, (groupKeys_perm rows).length_eq]
  · intro k
    rw [firstSeenKeys, mem_firstSeen]
    simp
  · exact sum_group_sizes rows (groupKeys rows) (nodup_groupKeys rows)
      (fun r hr => mem_groupKeys.mpr (List.mem_map.mpr ⟨r, hr, rfl⟩))
  · intro r hr
    refine ⟨r.record_id,
      ⟨mem_groupKeys.mpr (List.mem_map.mpr ⟨r, hr, rfl⟩), mem_groupOf.mpr ⟨hr, rfl⟩⟩, ?_⟩
    rintro k ⟨_, hk⟩
    exact ((mem_groupOf.mp hk).2).symm

/-- Witness for C2 on three rows over two towers. -/
theorem c2_partition_witness :
    exTwoTowerOuts.length = (firstSeenKeys exTwoTowerRows).length :=
  (c2_partition exTwoTowerRows "QC" "Lic" exTwoTowerOuts rfl).1

/-- Counterexample to C3: on input whose keys appear in order `B`, `A`
the transform emits the output rows in order `A`, `B`, not in the
first-appearance order `B`, `A`. -/
theorem c3_first_appearance_counterexample :
    (process_company_data exOrderRows "QC" "Lic").map
        (fun outs => outs.map fun o => o.tower_id) = Except.ok ["A", "B"] ∧
    firstSeenKeys exOrderRows = ["B", "A"] ∧
    (["A", "B"] : List String) ≠ ["B", "A"] :=
  ⟨rfl, rfl, by decide⟩

/-- C3 (amended): the grouper enumerates groups — and hence emits
output rows — in ascending sorted order of the grouping-key values
(Python string comparison), covering exactly the distinct keys of the
input, not in first-appearance order. -/
theorem c3_sorted_order (rows : List InputRow) (province licensee : String)
    (outs : List OutputRow)
    (h : process_company_data rows province licensee = Except.ok outs) :
    List.Sorted strLe (outs.map fun o => o.tower_id) ∧
    (outs.map fun o => o.tower_id).Nodup ∧
    ∀ k, k ∈ outs.map (fun o => o.tower_id) ↔ k ∈ rows.map fun r => r.record_id := by
  rw [outs_map_tower_id h]
  exact ⟨sorted_groupKeys rows, nodup_groupKeys rows, fun k => mem_groupKeys⟩

/-- Witness for the amended C3 on a concrete input. -/
theorem c3_sorted_order_witness :
    List.Sorted strLe (exTwoTowerOuts.map fun o => o.tower_id) :=
  (c3_sorted_order exTwoTowerRows "QC" "Lic" exTwoTowerOuts rfl).1

theorem typeOfHeight_num (q : ℚ) :
    (typeOfHeight (F.num q) = "Micro" ↔ q < 10) ∧
    (typeOfHeight (F.num q) = "Macro" ↔ ¬ q < 10) := by
  by_cases hq : q < 10 <;> simp [typeOfHeight, F.lt, hq]

theorem site_type_eq {province licensee : String} {a : AggRow} :
    (transformRow province licensee a).site_type = typeOfHeight a.structure_height := rfl

theorem height_m_eq {province licensee : String} {a : AggRow} :
    (transformRow province licensee a).height_m = a.structure_height := rfl

/-- C4: in every output row the `Type` field is `"Micro"` exactly when
the `Height (m)` value is a number strictly below 10 and `"Macro"`
otherwise; in particular height exactly 10 gives `"Macro"` and height
9.999 gives `"Micro"`. -/
theorem c4_type_threshold (rows : List InputRow) (province licensee : String)
    (outs : List OutputRow)
    (h : process_company_data rows province licensee = Except.ok outs) :
    (∀ o ∈ outs, ∀ q : ℚ, o.height_m = F.num q →
      ((o.site_type = "Micro" ↔ q < 10) ∧ (o.site_type = "Macro" ↔ ¬ q < 10))) ∧
    typeOfHeight (F.num 10) = "Macro" ∧
    typeOfHeight (F.num (9999 / 1000)) = "Micro" := by
  refine ⟨?_, ?_, ?_⟩
  · intro o ho q hq
    rcases mem_process_ok h ho with ⟨k, a, _, _, ho'⟩
    subst ho'
    rw [height_m_eq] at hq
    rw [site_type_eq, hq]
    exact typeOfHeight_num q
  · exact (typeOfHeight_num 10).2.mpr (by norm_num)
  · exact (typeOfHeight_num (9999 / 1000)).1.mpr (by norm_num)

/-- Witness for C4: a tower of height exactly 10 is classified `Macro`. -/
theorem c4_type_threshold_witness : exHeight10Out.site_type = "Macro" := by
  have h : process_company_data exHeight10Rows "QC" "Lic" = Except.ok [exHeight10Out] := rfl
  exact ((c4_type_threshold exHeight10Rows "QC" "Lic" [exHeight10Out] h).1
    exHeight10Out (List.mem_cons_self _ _) 10 rfl).2.mpr (by norm_num)

/-- Counterexample to C5: on the spec's three-row example the joined
`TECHNOLOGY` text is `4G~4G~5G` — the `LTE`→`4G` substitution is applied
but the join delimiter stays `~`; no `|` occurs in it, so the tokens are
not joined by the display delimiter `|`. -/
theorem c5_example_counterexample :
    (process_company_data exFiveRows "QC" "Lic").map
        (fun outs => outs.map fun o => o.technology) = Except.ok ["4G~4G~5G"] ∧
    ('|' ∉ ("4G~4G~5G" : String).data) ∧
    ("4G~4G~5G" : String) ≠ "4G|4G|5G" :=
  ⟨rfl, by decide, by decide⟩

/-- C5 (amended): the three-row example yields exactly one output row for
`E5015` with `4G_BW = 20`, `5G_BW = 100`, and a `TECHNOLOGY` text of two
`4G` tokens and one `5G` token joined by the internal delimiter `~`. -/
theorem c5_example_amended :
    (process_company_data exFiveRows "QC" "Lic").map
        (fun outs => outs.map fun o => (o.tower_id, o.bw_4g, o.bw_5g, o.technology)) =
      Except.ok [("E5015", F.num 20, F.num 100, "4G~4G~5G")] := by
  rw [show (20 : ℚ) = 0 + 10 + 10 by norm_num, show (100 : ℚ) = 0 + 100 by norm_num]
  rfl

/-- C6: every aggregated variable field is the `~`-joined concatenation
of the rows' values converted to text, in the group's row order, and a
one-row group yields the single value unmodified. -/
theorem c6_variable_field_join (key : String) (g : List InputRow) (a : AggRow)
    (h : aggregateGroup key g = Except.ok a) :
    a.licence_category = joinTilde (g.map fun r => strVal r.licence_category) ∧
    a.tx_ant_azimuth = joinTilde (g.map fun r => strVal r.tx_ant_azimuth) ∧
    a.technology = joinTilde (g.map fun r => r.technology) ∧
    a.bandwidth = joinTilde (g.map fun r => strVal r.bandwidth) ∧
    a.tx_power = joinTilde (g.map fun r => strVal r.tx_power) ∧
    ∀ s : String, joinTilde [s] = s := by
  rcases aggregateGroup_ok_iff.mp h with ⟨bw, _, ha⟩
  subst ha
  exact ⟨rfl, rfl, rfl, rfl, rfl, joinTilde_singleton⟩

/-- Witness for C6 on a concrete two-row group. -/
theorem c6_variable_field_join_witness :
    exJoinAgg.technology = joinTilde (exJoinGroup.map fun r => r.technology) :=
  (c6_variable_field_join "K" exJoinGroup exJoinAgg rfl).2.2.1

/-- C7: if any input row's bandwidth cell is not parseable as a float,
the whole invocation aborts with a `ParseError` and no output row is
produced for any group. -/
theorem c7_parse_error_aborts (rows : List InputRow) (province licensee : String)
    (h : ∃ r ∈ rows, isNum r.bandwidth = false) :
    process_company_data rows province licensee = Except.error ParseError.parseError := by
  rcases h with ⟨r, hr, hbad⟩
  have hk : r.record_id ∈ groupKeys rows :=
    mem_groupKeys.mpr (List.mem_map.mpr ⟨r, hr, rfl⟩)
  have hgrp : aggregateGroup r.record_id (groupOf rows r.record_id) =
      Except.error ParseError.parseError :=
    aggregateGroup_error ⟨r, mem_groupOf.mpr ⟨hr, rfl⟩, hbad⟩
  rw [process_company_data, aggregateAll_error (groupKeys rows) rows ⟨_, hk, hgrp⟩, error_bind]

/-- Witness for C7 on rows whose second bandwidth cell is `n/a`. -/
theorem c7_parse_error_aborts_witness :
    process_company_data exBadBwRows "QC" "Lic" = Except.error ParseError.parseError :=
  c7_parse_error_aborts exBadBwRows "QC" "Lic"
    ⟨mkRow "K" "LTE" (Val.sv "n/a") (F.num 0),
     List.mem_cons_of_mem _ (List.mem_cons_self _ _), rfl⟩

theorem typeOfHeight_cases (x : F) :
    typeOfHeight x = "Micro" ∨ typeOfHeight x = "Macro" := by
  rw [typeOfHeight]
  by_cases hx : F.lt x 10 = true
  · rw [if_pos hx]; exact Or.inl rfl
  · rw [if_neg hx]; exact Or.inr rfl

/-- C8: in every output row `Micro` is `1` exactly when `Type` is
`"Micro"` and `"-"` otherwise, `Macro` is `1` exactly when `Type` is
`"Macro"` and `"-"` otherwise, and the two markers are never both `1`
nor both `"-"`. -/
theorem c8_marker_exclusive (rows : List InputRow) (province licensee : String)
    (outs : List OutputRow)
    (h : process_company_data rows province licensee = Except.ok outs) :
    ∀ o ∈ outs,
      (o.micro_mk = if o.site_type = "Micro" then Mark.one else Mark.dash) ∧
      (o.macro_mk = if o.site_type = "Macro" then Mark.one else Mark.dash) ∧
      ¬ (o.micro_mk = Mark.one ∧ o.macro_mk = Mark.one) ∧
      ¬ (o.micro_mk = Mark.dash ∧ o.macro_mk = Mark.dash) := by
  intro o ho
  rcases mem_process_ok h ho with ⟨k, a, _, _, ho'⟩
  subst ho'
  rcases typeOfHeight_cases a.structure_height with ht | ht <;>
    simp [transformRow, site_type_eq, ht]

/-- Witness for C8: a height-5 tower has `Micro = 1` and `Macro = "-"`. -/
theorem c8_marker_exclusive_witness :
    ¬ (exHeight5Out.micro_mk = Mark.one ∧ exHeight5Out.macro_mk = Mark.one) := by
  have h : process_company_data exHeight5Rows "QC" "Lic" = Except.ok [exHeight5Out] := rfl
  exact (c8_marker_exclusive exHeight5Rows "QC" "Lic" [exHeight5Out] h
    exHeight5Out (List.mem_cons_self _ _)).2.2.1

/-- C9: the transform is deterministic — identical input row sequences
and identical caller constants give identical output tables. -/
theorem c9_deterministic (rows rows' : List InputRow) (province province' licensee licensee' : String)
    (h1 : rows = rows') (h2 : province = province') (h3 : licensee = licensee') :
    process_company_data rows province licensee =
      process_company_data rows' province' licensee' := by
  rw [h1, h2, h3]

/-- Witness for C9 on a concrete run. -/
theorem c9_deterministic_witness :
    process_company_data exDetRows "QC" "Lic" = process_company_data exDetRows "QC" "Lic" :=
  c9_deterministic exDetRows exDetRows "QC" "QC" "Lic" "Lic" rfl rfl rfl

/-- C10: a group whose first row's height cell is missing (`NaN`) is
classified `Macro` — the strict `< 10` comparison is false on `NaN` — so
its `Macro` marker is `1` and its `Micro` marker `"-"`, with no error. -/
theorem c10_nan_height (key : String) (r0 : InputRow) (rs : List InputRow)
    (a : AggRow) (province licensee : String)
    (h : aggregateGroup key (r0 :: rs) = Except.ok a)
    (hn : r0.structure_height = F.nan) :
    (transformRow province licensee a).site_type = "Macro" ∧
    (transformRow province licensee a).macro_mk = Mark.one ∧
    (transformRow province licensee a).micro_mk = Mark.dash := by
  rcases aggregateGroup_ok_iff.mp h with ⟨bw, _, ha⟩
  subst ha
  refine ⟨?_, ?_, ?_⟩ <;> simp [transformRow, typeOfHeight, F.lt, hn]

/-- Witness for C10 on a one-row group with a `NaN` height. -/
theorem c10_nan_height_witness :
    (transformRow "QC" "Lic" exNanAgg).site_type = "Macro" :=
  (c10_nan_height "K" exNanRow [] exNanAgg "QC" "Lic" rfl rfl).1

end Spec2
